import Mathlib

/-!
Verification development for the MorphConv sentence-classification notebook
(`Sentence classification by MorphConv.ipynb`).

The notebook is a single linear experiment: load labeled movie reviews, split
train/validation, tokenize into morphemes, build a frequency-filtered
vocabulary from the training split, encode every review as a fixed-length
integer sequence, train a dual-embedding convolutional classifier, and report
test accuracy.  The definitions below are a shallow embedding of that
pipeline; real-valued tensor arithmetic is modelled over `ℚ`, strings and
lists stand for the token sequences and arrays of the source.
-/

namespace MorphConvModel

/-! ## Vocabulary construction

`counter = nlp.data.count_tokens(itertools.chain.from_iterable(X_tr))`
`vocab = nlp.Vocab(counter, bos_token=None, eos_token=None, min_freq=15)`

A gluonnlp `Vocab` with `bos_token = eos_token = None` reserves the unknown
token `"<unk>"` at index 0 and the padding token `"<pad>"` at index 1, then
appends the counter's keys sorted by frequency (descending, ties
alphabetically ascending), skipping tokens whose count is below `min_freq`
and tokens already indexed (the reserved ones).  `token_to_idx` is a lookup
dictionary whose default value for absent keys is the unknown index 0. -/

def minFreq : Nat := 15

def reservedTokens : List String := ["<unk>", "<pad>"]

def unknownIdx : Nat := 0

/-- Frequency order used by the vocabulary: higher count first, ties broken
alphabetically (ascending). -/
def freqLe (tks : List String) (a b : String) : Bool :=
  (tks.count b < tks.count a) || (tks.count a == tks.count b && a ≤ b)

/-- Candidate tokens of the vocabulary: the distinct training tokens put in
frequency order by a stable sort (gluonnlp uses Python's stable `sorted`),
filtered by `min_freq` and by not being reserved. -/
def vocabCandidates (tks : List String) : List String :=
  ((tks.dedup).insertionSort (fun a b => freqLe tks a b = true)).filter
    (fun t => minFreq ≤ tks.count t ∧ t ∉ reservedTokens)

structure Vocab where
  idx_to_token : List String
deriving Repr

/-- Source: `nlp.Vocab(counter, bos_token=None, eos_token=None, min_freq=15)` built
from the training tokens. -/
def buildVocab (tks : List String) : Vocab :=
  ⟨reservedTokens ++ vocabCandidates tks⟩

/-- Source: `vocab.token_to_idx[token]`: the token's index when present, otherwise the
default unknown index 0. -/
def token_to_idx (v : Vocab) (t : String) : Nat :=
  if t ∈ v.idx_to_token then v.idx_to_token.indexOf t else unknownIdx

/-! ## Padding / truncation

`pad_sequences(sequences, maxlen = 30, padding = 'post', value = 1.)`
(keras; `truncating` keeps its default `'pre'`): a sequence longer than
`maxlen` keeps its last `maxlen` entries; a shorter one is padded at the end
with `value`.  `value = 1.` is cast to the integer 1, the `"<pad>"` index. -/

def maxLen : Nat := 30

def padValue : Nat := 1

def padOne (maxlen : Nat) (value : Nat) (s : List Nat) : List Nat :=
  let trunc := if maxlen < s.length then s.drop (s.length - maxlen) else s
  trunc ++ List.replicate (maxlen - trunc.length) value

def pad_sequences (maxlen : Nat) (value : Nat) (seqs : List (List Nat)) :
    List (List Nat) :=
  seqs.map (padOne maxlen value)

/-- Source: `list(map(lambda sen : [vocab.token_to_idx[token] for token in sen], X))` -/
def lookupSplit (v : Vocab) (split : List (List String)) : List (List Nat) :=
  split.map (fun sen => sen.map (token_to_idx v))

def encodeSentence (v : Vocab) (sen : List String) : List Nat :=
  padOne maxLen padValue (sen.map (token_to_idx v))

/-! ## The preprocessing state

The notebook builds the vocabulary once (from `X_tr` only), attaches the
pretrained fasttext vectors (`vocab.set_embedding(fasttext_simple)`, one row
per vocabulary id; the provider is an opaque external service modelled as a
function from token to vector), and then encodes the three splits with that
fixed state.  `encodeSplit` passes the state through explicitly so that the
"no mutation" invariant is a theorem, not an artefact. -/

structure PrepState where
  vocab : Vocab
  embedding : List (List ℚ)

def buildPrep (xtr : List (List String)) (pretrained : String → List ℚ) :
    PrepState :=
  let v := buildVocab xtr.flatten
  ⟨v, v.idx_to_token.map pretrained⟩

def encodeSplit (st : PrepState) (split : List (List String)) :
    List (List Nat) × PrepState :=
  (pad_sequences maxLen padValue (lookupSplit st.vocab split), st)

/-- The whole preprocessing of cells 10–12: build the vocabulary and embedding
from the training split, then encode train, validation and test with it. -/
def encodeAll (pretrained : String → List ℚ)
    (xtr xval xtst : List (List String)) :
    (List (List Nat) × List (List Nat) × List (List Nat)) × PrepState :=
  let st0 := buildPrep xtr pretrained
  let (etr, st1) := encodeSplit st0 xtr
  let (ev, st2) := encodeSplit st1 xval
  let (ets, st3) := encodeSplit st2 xtst
  ((etr, ev, ets), st3)

/-! ## The MorphConv model

Shallow embedding of the `MorphConv` class.  A batch is processed example by
example in the maths below, so the forward pass is stated for one input id
sequence `x : List Nat`.  Real tensor entries are modelled as `ℚ`.

The two embedding tables are `tf.get_variable` instances: `static` with
`trainable = False`, `non_static` with `trainable = True`, both with
`initializer = embedding` (the pretrained matrix).  Each Keras `Conv1D`
object (`tri_gram`, `tetra_gram`, `penta_gram`) is applied to *both*
embedding outputs, hence each filter bank's weights are shared between the
static and non-static branches.  `padding = 'valid'`, `activation = relu`. -/

def relu (x : ℚ) : ℚ := max x 0

def dotQ (a b : List ℚ) : ℚ := (List.zipWith (· * ·) a b).sum

/-- A `Conv1D(filters, kernel_size, activation=relu, padding='valid')` layer:
one kernel (of shape `kernel_size × embed_dim`) and one bias per output
channel. -/
structure ConvLayer where
  kernel_size : Nat
  kernels : List (List (List ℚ))
  bias : List ℚ

/-- All sliding windows of width `k` over the time axis (valid padding). -/
def timeWindows (k : Nat) (xs : List (List ℚ)) : List (List (List ℚ)) :=
  (List.range (xs.length + 1 - k)).map (fun t => (xs.drop t).take k)

/-- One output channel on one window: relu of bias plus the sum over the
window positions of the kernel-row / input-row dot products. -/
def convChannel (K : List (List ℚ)) (b : ℚ) (w : List (List ℚ)) : ℚ :=
  relu ((List.zipWith dotQ K w).sum + b)

/-- The full `Conv1D` + relu applied to a time-major input. -/
def conv1dRelu (L : ConvLayer) (xs : List (List ℚ)) : List (List ℚ) :=
  (timeWindows L.kernel_size xs).map
    (fun w => (L.kernels.zip L.bias).map (fun kb => convChannel kb.1 kb.2 w))

/-- Elementwise sum of two time-major feature maps (`static_k + non_static_k`). -/
def seqAdd (a b : List (List ℚ)) : List (List ℚ) :=
  List.zipWith (List.zipWith (· + ·)) a b

/-- Source: `tf.reduce_max(·, axis = 1)`: elementwise maximum over the time axis. -/
def reduceMaxTime (xs : List (List ℚ)) : List ℚ :=
  match xs with
  | [] => []
  | h :: t => t.foldl (fun acc v => List.zipWith max acc v) h

/-- The model's variables.  `denseW` holds one weight row per output class
(the Keras `Dense(units = n_of_classes)` kernel, transposed), `denseB` the
biases. -/
structure Params where
  static_embed : List (List ℚ)
  non_static_embed : List (List ℚ)
  tri_gram : ConvLayer
  tetra_gram : ConvLayer
  penta_gram : ConvLayer
  denseW : List (List ℚ)
  denseB : List ℚ

/-- Source: `MorphConv.__init__`: both embedding tables are initialized from the same
pretrained `embedding` matrix; the convolution and dense weights come from
their own (random) initializers, abstracted as arguments. -/
def initParams (embedding : List (List ℚ)) (tri tetra penta : ConvLayer)
    (dW : List (List ℚ)) (dB : List ℚ) : Params :=
  { static_embed := embedding
    non_static_embed := embedding
    tri_gram := tri
    tetra_gram := tetra
    penta_gram := penta
    denseW := dW
    denseB := dB }

/-- Source: `tf.nn.embedding_lookup(params = static_embed, ids = X)`. -/
def staticBatch (p : Params) (x : List Nat) : List (List ℚ) :=
  x.map (fun i => p.static_embed.getD i [])

/-- Source: `tf.nn.embedding_lookup(params = non_static_embed, ids = X)`. -/
def nonStaticBatch (p : Params) (x : List Nat) : List (List ℚ) :=
  x.map (fun i => p.non_static_embed.getD i [])

/-- Source: `fmap_3 = tf.reduce_max(static_3 + non_static_3, axis = 1)` where both
`static_3` and `non_static_3` are outputs of the *same* `tri_gram` layer. -/
def fmap3 (p : Params) (x : List Nat) : List ℚ :=
  reduceMaxTime (seqAdd (conv1dRelu p.tri_gram (staticBatch p x))
    (conv1dRelu p.tri_gram (nonStaticBatch p x)))

def fmap4 (p : Params) (x : List Nat) : List ℚ :=
  reduceMaxTime (seqAdd (conv1dRelu p.tetra_gram (staticBatch p x))
    (conv1dRelu p.tetra_gram (nonStaticBatch p x)))

def fmap5 (p : Params) (x : List Nat) : List ℚ :=
  reduceMaxTime (seqAdd (conv1dRelu p.penta_gram (staticBatch p x))
    (conv1dRelu p.penta_gram (nonStaticBatch p x)))

/-- Source: `flattened = tf.concat([fmap_3, fmap_4, fmap_5], axis = -1)`. -/
def flattened (p : Params) (x : List Nat) : List ℚ :=
  fmap3 p x ++ fmap4 p x ++ fmap5 p x

/-- The spec's description of one width's feature vector: one filter bank
`L` applied with the *same* weights to the frozen branch `a` and the
trainable branch `b`; the two outputs summed elementwise; the sum reduced by
the maximum over the time axis.  To be compared against the model's
`fmap3`/`fmap4`/`fmap5`. -/
def specWidthFeature (L : ConvLayer) (a b : List (List ℚ)) : List ℚ :=
  reduceMaxTime (seqAdd (conv1dRelu L a) (conv1dRelu L b))

/-- Source: `score = Dense(units = n_of_classes, kernel_regularizer = l2(.7))(flattened)`. -/
def denseScore (p : Params) (x : List Nat) : List ℚ :=
  (p.denseW.zip p.denseB).map (fun wb => dotQ wb.1 (flattened p x) + wb.2)

def dropoutRate : ℚ := 1 / 2

/-- A realised keep mask of the dropout layer (framework randomness,
abstracted): entry 1 keeps a unit, entry 0 drops it. -/
def applyDropoutMask (rate : ℚ) (mask : List ℚ) (v : List ℚ) : List ℚ :=
  List.zipWith (fun m s => m * s / (1 - rate)) mask v

/-- Source: `self.__score = Dropout(rate = .5)(score, training = self.is_training)`:
the dropout layer scales by a random keep mask when training, and is the
identity when not. -/
def modelScore (p : Params) (x : List Nat) (is_training : Bool)
    (mask : List ℚ) : List ℚ :=
  if is_training then applyDropoutMask dropoutRate mask (denseScore p x)
  else denseScore p x

/-- Source: `tf.argmax(·, axis = -1)`: index of the (first) maximal entry. -/
def argmaxIdx (l : List ℚ) : Nat :=
  (l.enum.foldl (fun best q => if best.2 < q.2 then q else best)
    (0, l.headD 0)).1

/-- Source: `self.prediction = tf.argmax(self.__score, axis = -1)`. -/
def prediction (p : Params) (x : List Nat) (is_training : Bool)
    (mask : List ℚ) : Nat :=
  argmaxIdx (modelScore p x is_training mask)

/-! ## Loss

`ce_loss = tf.losses.sparse_softmax_cross_entropy(labels, logits=self.__score)`
`reg_term = tf.reduce_sum(tf.get_collection(tf.GraphKeys.REGULARIZATION_LOSSES))`
`self.total_loss = ce_loss + reg_term`

The transcendental functions of the framework's softmax cross-entropy are
opaque external primitives here, abstracted as arguments `fexp` and `flog`;
in the standard log-sum-exp form the per-example loss is
`log (Σⱼ exp sⱼ) - s_label`.  The only regularizer registered in the graph is
the output layer's `keras.regularizers.l2(.7)`, whose penalty is
`0.7 * Σ w²` over that layer's kernel. -/

def sparseSoftmaxCE (fexp flog : ℚ → ℚ) (label : Nat) (logits : List ℚ) : ℚ :=
  flog ((logits.map fexp).sum) - logits.getD label 0

def sumSq (W : List (List ℚ)) : ℚ :=
  (W.map (fun r => (r.map (fun w => w * w)).sum)).sum

/-- Source: `keras.regularizers.l2(.7)` applied to the dense kernel. -/
def l2Penalty (c : ℚ) (W : List (List ℚ)) : ℚ := c * sumSq W

/-- Source: `tf.get_collection(tf.GraphKeys.REGULARIZATION_LOSSES)`: the graph holds
exactly one registered regularization loss, the dense layer's. -/
def regularizationLosses (p : Params) : List ℚ :=
  [l2Penalty (7/10) p.denseW]

def total_loss (fexp flog : ℚ → ℚ) (p : Params) (x : List Nat) (y : Nat)
    (is_training : Bool) (mask : List ℚ) : ℚ :=
  sparseSoftmaxCE fexp flog y (modelScore p x is_training mask)
    + (regularizationLosses p).sum

/-! ## Training step

`opt.minimize(loss = morph_conv.total_loss)` computes gradients with respect
to the *trainable* variables and applies an Adam update to exactly those.
The trainable set is `non_static_embed`, the three conv layers' kernels and
biases, and the dense kernel and bias; `static_embed` was created with
`trainable = False` and is not touched.  The numeric update each variable
receives is framework-internal, abstracted as a per-variable delta. -/

structure Grads where
  non_static_embed : List (List ℚ)
  triK : List (List (List ℚ))
  triB : List ℚ
  tetraK : List (List (List ℚ))
  tetraB : List ℚ
  pentaK : List (List (List ℚ))
  pentaB : List ℚ
  denseW : List (List ℚ)
  denseB : List ℚ

def vecSub (a b : List ℚ) : List ℚ := List.zipWith (· - ·) a b

def matSub (a b : List (List ℚ)) : List (List ℚ) := List.zipWith vecSub a b

def tenSub (a b : List (List (List ℚ))) : List (List (List ℚ)) :=
  List.zipWith matSub a b

/-- One optimizer step: every trainable variable moves by its update, the
non-trainable `static_embed` is carried over unchanged. -/
def trainStep (g : Grads) (p : Params) : Params :=
  { static_embed := p.static_embed
    non_static_embed := matSub p.non_static_embed g.non_static_embed
    tri_gram := ⟨p.tri_gram.kernel_size, tenSub p.tri_gram.kernels g.triK,
      vecSub p.tri_gram.bias g.triB⟩
    tetra_gram := ⟨p.tetra_gram.kernel_size, tenSub p.tetra_gram.kernels g.tetraK,
      vecSub p.tetra_gram.bias g.tetraB⟩
    penta_gram := ⟨p.penta_gram.kernel_size, tenSub p.penta_gram.kernels g.pentaK,
      vecSub p.penta_gram.bias g.pentaB⟩
    denseW := matSub p.denseW g.denseW
    denseB := vecSub p.denseB g.denseB }

/-! ## Train/validation index split

`val_indices = np.random.choice(a = range(N), size = int(N * .2), replace = False)`
`tr_indices = np.delete(arr = range(N), obj = val_indices, axis = 0)`

`np.random.choice` with `replace = False` returns `int(N * 0.2) = ⌊N/5⌋`
distinct members of `range(N)` (framework randomness, taken as hypotheses on
the drawn list).  `np.delete` on the array `range(N)` removes the entries at
the positions listed in `val_indices`; since entry `i` of `range(N)` is `i`
itself, the result is exactly the members of `range(N)` whose value is not in
`val_indices`, in ascending order. -/

def valSplitSize (N : Nat) : Nat := N / 5

def tr_indices (N : Nat) (val_indices : List Nat) : List Nat :=
  (List.range N).filter (fun i => i ∉ val_indices)

/-! ## Training loop

Cell 24.  Each epoch runs two phases.  The train phase loops
`sess.run([training_op, total_loss])` — one optimizer step plus the loss of
the batch at the pre-update parameters — accumulating `avg_tr_loss` and
`tr_step`, until the dataset iterator signals `tf.errors.OutOfRangeError`,
which is caught and ends the phase.  The validation phase does the same
without the training op.  Afterwards `avg_tr_loss /= tr_step` and
`avg_val_loss /= val_step`.

The iterator over a split is modelled as the list of remaining batches;
`getNext` yields the next batch or the out-of-range signal. -/

/-- Source: `iterator.get_next()`: the next batch and the advanced iterator, or the
`OutOfRangeError` signal when the split is exhausted. -/
def getNext {β : Type} : List β → Except Unit (β × List β)
  | [] => Except.error ()
  | b :: rest => Except.ok (b, rest)

/-- The train phase: `step p b` is one `sess.run([training_op, total_loss])`
(the updated parameters and the batch loss).  Returns the final parameters,
the accumulated loss and the step count. -/
def runTrainPhase {β : Type} (step : Params → β → Params × ℚ) :
    Params → List β → ℚ → Nat → Params × ℚ × Nat
  | p, [], acc, n => (p, acc, n)
  | p, b :: it, acc, n =>
      runTrainPhase step (step p b).1 it (acc + (step p b).2) (n + 1)

/-- The validation phase: loss only, no parameter update. -/
def runValPhase {β : Type} (lossOf : β → ℚ) :
    List β → ℚ → Nat → ℚ × Nat
  | [], acc, n => (acc, n)
  | b :: it, acc, n => runValPhase lossOf it (acc + lossOf b) (n + 1)

/-- The per-batch losses the train phase observes (parameters evolve between
batches). -/
def trainPhaseLosses {β : Type} (step : Params → β → Params × ℚ) :
    Params → List β → List ℚ
  | _, [] => []
  | p, b :: it => (step p b).2 :: trainPhaseLosses step (step p b).1 it

/-- One epoch of cell 24: the train phase over the (shuffled) training
batches, then the validation phase with the post-training parameters, then
the running means.  Returns (new params, avg train loss, avg val loss). -/
def runEpoch {β : Type} (step : Params → β → Params × ℚ)
    (vloss : Params → β → ℚ) (p : Params) (trBatches valBatches : List β) :
    Params × ℚ × ℚ :=
  let tr := runTrainPhase step p trBatches 0 0
  let va := runValPhase (vloss tr.1) valBatches 0 0
  (tr.1, tr.2.1 / (tr.2.2 : ℚ), va.1 / (va.2 : ℚ))

/-! ## Basic facts about the embedding -/

theorem padOne_length (m v : Nat) (s : List Nat) : (padOne m v s).length = m := by
  unfold padOne
  by_cases h : m < s.length
  · simp [h]
    omega
  · simp [h]
    omega

theorem mem_padOne {a : Nat} {m v : Nat} {s : List Nat}
    (h : a ∈ padOne m v s) : a ∈ s ∨ a = v := by
  unfold padOne at h
  by_cases hm : m < s.length
  · simp [hm] at h
    rcases h with h | h
    · exact Or.inl (List.mem_of_mem_drop h)
    · exact Or.inr h.2
  · simp [hm] at h
    rcases h with h | h
    · exact Or.inl h
    · exact Or.inr h.2

theorem two_le_vocab_size (tks : List String) :
    2 ≤ (buildVocab tks).idx_to_token.length := by
  simp [buildVocab, reservedTokens]

theorem token_to_idx_lt (v : Vocab) (hv : 0 < v.idx_to_token.length)
    (t : String) : token_to_idx v t < v.idx_to_token.length := by
  unfold token_to_idx
  by_cases h : t ∈ v.idx_to_token
  · rw [if_pos h]
    exact List.indexOf_lt_length.2 h
  · rw [if_neg h]
    simpa [unknownIdx] using hv

theorem token_to_idx_of_not_mem {v : Vocab} {t : String}
    (h : t ∉ v.idx_to_token) : token_to_idx v t = unknownIdx := by
  unfold token_to_idx
  rw [if_neg h]

theorem mem_vocabCandidates {tks : List String} {t : String}
    (h : t ∈ vocabCandidates tks) :
    t ∈ tks ∧ minFreq ≤ tks.count t ∧ t ∉ reservedTokens := by
  unfold vocabCandidates at h
  rw [List.mem_filter] at h
  obtain ⟨hmem, hp⟩ := h
  rw [List.mem_insertionSort, List.mem_dedup] at hmem
  simp only [decide_eq_true_eq] at hp
  exact ⟨hmem, hp⟩

/-- C10: the keras `pad_sequences(maxlen = 30, padding = 'post')` call keeps
the default `truncating = 'pre'`: a review of more than 30 tokens keeps the
*last* 30 token ids (the beginning is discarded), and a review of at most 30
tokens gets the pad value appended after its ids. -/
theorem encode_truncates_pre_pads_post (v : Vocab) (sen : List String) :
    (30 < sen.length →
      encodeSentence v sen =
        (sen.map (token_to_idx v)).drop (sen.length - 30) ∧
      (encodeSentence v sen).length = 30) ∧
    (sen.length ≤ 30 →
      encodeSentence v sen =
        sen.map (token_to_idx v) ++
          List.replicate (30 - sen.length) padValue) := by
  constructor
  · intro h
    have hlen : (sen.map (token_to_idx v)).length = sen.length :=
      List.length_map _ _
    refine ⟨?_, ?_⟩
    · simp only [encodeSentence, padOne, maxLen]
      rw [hlen, if_pos h, List.length_drop, hlen]
      have hz : 30 - (sen.length - (sen.length - 30)) = 0 := by omega
      rw [hz]
      simp
    · simpa [encodeSentence] using padOne_length maxLen padValue _
  · intro h
    simp only [encodeSentence, padOne, maxLen]
    have hlen : (sen.map (token_to_idx v)).length = sen.length :=
      List.length_map _ _
    have : ¬ 30 < sen.length := by omega
    rw [hlen, if_neg this, hlen]

/-- Witness for the C10 theorem at a 31-token and at a 2-token review. -/
theorem encode_truncates_pre_pads_post_witness :
    (encodeSentence (buildVocab []) (List.replicate 31 "x") =
      ((List.replicate 31 "x").map (token_to_idx (buildVocab []))).drop 1 ∧
      (encodeSentence (buildVocab []) (List.replicate 31 "x")).length = 30) ∧
    encodeSentence (buildVocab []) ["x", "y"] =
      ["x", "y"].map (token_to_idx (buildVocab [])) ++
        List.replicate 28 padValue := by
  constructor
  · have h := (encode_truncates_pre_pads_post (buildVocab [])
      (List.replicate 31 "x")).1 (by simp)
    simpa using h
  · exact (encode_truncates_pre_pads_post (buildVocab []) ["x", "y"]).2
      (by simp)

/-- C2: a token absent from the vocabulary built from the training split is
looked up as the fixed unknown id 0; no lookup can yield a fresh id (every
result is an index into the fixed `idx_to_token` list). -/
theorem unknown_token_maps_to_unk (tks : List String) (t : String)
    (h : t ∉ (buildVocab tks).idx_to_token) :
    token_to_idx (buildVocab tks) t = unknownIdx ∧
    unknownIdx < (buildVocab tks).idx_to_token.length ∧
    ∀ t' : String,
      token_to_idx (buildVocab tks) t' < (buildVocab tks).idx_to_token.length := by
  have h2 := two_le_vocab_size tks
  refine ⟨token_to_idx_of_not_mem h, ?_, fun t' => token_to_idx_lt _ (by omega) t'⟩
  simp only [unknownIdx]
  omega

/-- Witness for the C2 theorem: the token `"x"` does not occur in the
vocabulary built from an empty training split. -/
theorem unknown_token_maps_to_unk_witness :
    token_to_idx (buildVocab []) "x" = unknownIdx ∧
    unknownIdx < (buildVocab []).idx_to_token.length ∧
    ∀ t' : String,
      token_to_idx (buildVocab []) t' < (buildVocab []).idx_to_token.length :=
  unknown_token_maps_to_unk [] "x" (by decide)

theorem encoded_split_wellformed {v : Vocab} (hv : 0 < v.idx_to_token.length)
    {split : List (List String)} {e : List Nat}
    (he : e ∈ pad_sequences maxLen padValue (lookupSplit v split)) :
    e.length = 30 ∧ ∀ a ∈ e, a < v.idx_to_token.length ∨ a = padValue := by
  unfold pad_sequences lookupSplit at he
  rw [List.mem_map] at he
  obtain ⟨ids, hids, rfl⟩ := he
  rw [List.mem_map] at hids
  obtain ⟨sen, -, rfl⟩ := hids
  refine ⟨padOne_length _ _ _, fun a ha => ?_⟩
  rcases mem_padOne ha with h | h
  · rw [List.mem_map] at h
    obtain ⟨t, -, rfl⟩ := h
    exact Or.inl (token_to_idx_lt v hv t)
  · exact Or.inr h

/-- C1: every review of the train, validation and test splits is encoded
(tokenization + vocabulary lookup + padding/truncation) as a sequence of
exactly 30 integers, each of which is a valid vocabulary id or the pad
value. -/
theorem every_encoded_review_wellformed (pretrained : String → List ℚ)
    (xtr xval xtst : List (List String)) (e : List Nat)
    (he : e ∈ (encodeAll pretrained xtr xval xtst).1.1 ++
      (encodeAll pretrained xtr xval xtst).1.2.1 ++
      (encodeAll pretrained xtr xval xtst).1.2.2) :
    e.length = 30 ∧
    ∀ a ∈ e,
      a < (buildVocab xtr.flatten).idx_to_token.length ∨ a = padValue := by
  have hv : 0 < (buildVocab xtr.flatten).idx_to_token.length := by
    have := two_le_vocab_size xtr.flatten
    omega
  have h1 : (encodeAll pretrained xtr xval xtst).1.1 =
      pad_sequences maxLen padValue (lookupSplit (buildVocab xtr.flatten) xtr) :=
    rfl
  have h2 : (encodeAll pretrained xtr xval xtst).1.2.1 =
      pad_sequences maxLen padValue (lookupSplit (buildVocab xtr.flatten) xval) :=
    rfl
  have h3 : (encodeAll pretrained xtr xval xtst).1.2.2 =
      pad_sequences maxLen padValue (lookupSplit (buildVocab xtr.flatten) xtst) :=
    rfl
  rw [h1, h2, h3, List.mem_append, List.mem_append] at he
  rcases he with (he | he) | he
  · exact encoded_split_wellformed hv he
  · exact encoded_split_wellformed hv he
  · exact encoded_split_wellformed hv he

/-- Witness for the C1 theorem: the encoding of the empty test review in a
concrete run of the pipeline. -/
theorem every_encoded_review_wellformed_witness :
    (List.replicate 30 1).length = 30 ∧
    ∀ a ∈ List.replicate 30 1,
      a < (buildVocab [["a"]].flatten).idx_to_token.length ∨ a = padValue :=
  every_encoded_review_wellformed (fun _ => []) [["a"]] [["b"]] [[]]
    (List.replicate 30 1) (by decide)

/-- C3: the vocabulary and the embedding matrix of the preprocessing state
are built exactly once, from the training split's tokens only (reserved
tokens apart, every vocabulary entry is a training token of frequency at
least `min_freq = 15`), and encoding any split leaves the state unchanged;
in particular the final state does not depend on the validation or test
data. -/
theorem vocab_built_once_from_train (pretrained : String → List ℚ)
    (xtr xval xtst xval' xtst' : List (List String)) :
    (encodeAll pretrained xtr xval xtst).2 = buildPrep xtr pretrained ∧
    ((encodeAll pretrained xtr xval xtst).2).vocab = buildVocab xtr.flatten ∧
    ((encodeAll pretrained xtr xval xtst).2).embedding =
      (buildVocab xtr.flatten).idx_to_token.map pretrained ∧
    (encodeAll pretrained xtr xval' xtst').2 =
      (encodeAll pretrained xtr xval xtst).2 ∧
    (∀ (st : PrepState) (split : List (List String)),
      (encodeSplit st split).2 = st) ∧
    ∀ t ∈ (buildVocab xtr.flatten).idx_to_token,
      t ∈ reservedTokens ∨
        (minFreq ≤ xtr.flatten.count t ∧ t ∈ xtr.flatten) := by
  refine ⟨rfl, rfl, rfl, rfl, fun _ _ => rfl, fun t ht => ?_⟩
  unfold buildVocab at ht
  rw [List.mem_append] at ht
  rcases ht with ht | ht
  · exact Or.inl ht
  · have := mem_vocabCandidates ht
    exact Or.inr ⟨this.2.1, this.1⟩

/-- Witness for the C3 theorem in a concrete run, with the vocabulary-entry
conjunct instantiated at the reserved token. -/
theorem vocab_built_once_from_train_witness :
    (encodeAll (fun _ => []) [["a"]] [["b"]] [["c"]]).2 =
      buildPrep [["a"]] (fun _ => []) ∧
    ("<unk>" ∈ reservedTokens ∨
      (minFreq ≤ [["a"]].flatten.count "<unk>" ∧ "<unk>" ∈ [["a"]].flatten)) :=
  ⟨(vocab_built_once_from_train (fun _ => []) [["a"]] [["b"]] [["c"]] [] []).1,
    (vocab_built_once_from_train (fun _ => []) [["a"]] [["b"]] [["c"]] [] []).2.2.2.2.2
      "<unk>" (by decide)⟩

/-- C4: both embedding tables are initialized to the identical pretrained
matrix; an optimizer step never changes the non-trainable static table; and
the two tables are looked up with the same input ids, so while they are
still equal their lookups agree. -/
theorem static_embedding_frozen (embedding : List (List ℚ))
    (tri tetra penta : ConvLayer) (dW : List (List ℚ)) (dB : List ℚ)
    (g : Grads) (p : Params) (x : List Nat) :
    (initParams embedding tri tetra penta dW dB).static_embed = embedding ∧
    (initParams embedding tri tetra penta dW dB).non_static_embed = embedding ∧
    (trainStep g p).static_embed = p.static_embed ∧
    (p.static_embed = p.non_static_embed →
      staticBatch p x = nonStaticBatch p x) := by
  refine ⟨rfl, rfl, rfl, fun h => ?_⟩
  simp [staticBatch, nonStaticBatch, h]

/-- Witness for the C4 theorem at concrete freshly-initialized parameters. -/
theorem static_embedding_frozen_witness :
    (trainStep ⟨[], [], [], [], [], [], [], [], []⟩
        (initParams [[1]] ⟨3, [], []⟩ ⟨4, [], []⟩ ⟨5, [], []⟩ [] [])).static_embed =
      (initParams [[1]] ⟨3, [], []⟩ ⟨4, [], []⟩ ⟨5, [], []⟩ [] []).static_embed ∧
    staticBatch (initParams [[1]] ⟨3, [], []⟩ ⟨4, [], []⟩ ⟨5, [], []⟩ [] []) [0] =
      nonStaticBatch (initParams [[1]] ⟨3, [], []⟩ ⟨4, [], []⟩ ⟨5, [], []⟩ [] []) [0] :=
  ⟨(static_embedding_frozen [[1]] ⟨3, [], []⟩ ⟨4, [], []⟩ ⟨5, [], []⟩ [] []
      ⟨[], [], [], [], [], [], [], [], []⟩
      (initParams [[1]] ⟨3, [], []⟩ ⟨4, [], []⟩ ⟨5, [], []⟩ [] []) [0]).2.2.1,
    (static_embedding_frozen [[1]] ⟨3, [], []⟩ ⟨4, [], []⟩ ⟨5, [], []⟩ [] []
      ⟨[], [], [], [], [], [], [], [], []⟩
      (initParams [[1]] ⟨3, [], []⟩ ⟨4, [], []⟩ ⟨5, [], []⟩ [] []) [0]).2.2.2 rfl⟩

theorem conv1dRelu_length (L : ConvLayer) (xs : List (List ℚ)) :
    (conv1dRelu L xs).length = xs.length + 1 - L.kernel_size := by
  simp [conv1dRelu, timeWindows]

theorem mem_conv1dRelu {L : ConvLayer} {xs : List (List ℚ)} {v : List ℚ}
    (h : v ∈ conv1dRelu L xs) :
    v.length = min L.kernels.length L.bias.length := by
  unfold conv1dRelu at h
  rw [List.mem_map] at h
  obtain ⟨w, -, rfl⟩ := h
  simp [List.length_zip]

theorem mem_seqAdd :
    ∀ {a b : List (List ℚ)} {v : List ℚ}, v ∈ seqAdd a b →
      ∃ u ∈ a, ∃ w ∈ b, v = List.zipWith (· + ·) u w := by
  intro a
  induction a with
  | nil => intro b v h; simp [seqAdd] at h
  | cons u us ih =>
    intro b v h
    cases b with
    | nil => simp [seqAdd] at h
    | cons w ws =>
      rw [seqAdd, List.zipWith_cons_cons] at h
      rcases List.mem_cons.1 h with h | h
      · exact ⟨u, List.mem_cons_self _ _, w, List.mem_cons_self _ _, h⟩
      · obtain ⟨u', hu, w', hw, rfl⟩ := ih h
        exact ⟨u', List.mem_cons_of_mem _ hu, w', List.mem_cons_of_mem _ hw,
          rfl⟩

theorem foldl_zipWith_max_length (c : Nat) :
    ∀ (t : List (List ℚ)) (acc : List ℚ), acc.length = c →
      (∀ v ∈ t, v.length = c) →
      (t.foldl (fun acc v => List.zipWith max acc v) acc).length = c := by
  intro t
  induction t with
  | nil => intro acc h _; simpa using h
  | cons v vs ih =>
    intro acc hacc hall
    simp only [List.foldl_cons]
    apply ih
    · rw [List.length_zipWith, hacc, hall v (List.mem_cons_self _ _)]
      simp
    · intro u hu
      exact hall u (List.mem_cons_of_mem _ hu)

theorem reduceMaxTime_length {xs : List (List ℚ)} {c : Nat}
    (hne : xs ≠ []) (h : ∀ v ∈ xs, v.length = c) :
    (reduceMaxTime xs).length = c := by
  cases xs with
  | nil => exact absurd rfl hne
  | cons v vs =>
    unfold reduceMaxTime
    exact foldl_zipWith_max_length c vs v (h v (List.mem_cons_self _ _))
      (fun u hu => h u (List.mem_cons_of_mem _ hu))

theorem specWidthFeature_length {L : ConvLayer} {a b : List (List ℚ)}
    {c : Nat} (hk : L.kernels.length = c) (hb : L.bias.length = c)
    (hab : a.length = b.length) (hks : L.kernel_size ≤ a.length) :
    (specWidthFeature L a b).length = c := by
  unfold specWidthFeature
  apply reduceMaxTime_length
  · rw [← List.length_pos, seqAdd, List.length_zipWith, conv1dRelu_length,
      conv1dRelu_length, ← hab]
    omega
  · intro v hv
    obtain ⟨u, hu, w, hw, rfl⟩ := mem_seqAdd hv
    rw [List.length_zipWith, mem_conv1dRelu hu, mem_conv1dRelu hw, hk, hb]
    simp

/-- C5: the three filter banks (window widths 3, 4, 5; 100 output channels
each) are each applied with the same weights to both the frozen and the
trainable embedding outputs; per width the two outputs are summed
elementwise and reduced by the maximum over the time axis, giving a
100-dimensional vector per width; the three vectors are concatenated into a
300-dimensional vector. -/
theorem conv_stage_structure (p : Params) (x : List Nat)
    (h3 : p.tri_gram.kernel_size = 3) (h3k : p.tri_gram.kernels.length = 100)
    (h3b : p.tri_gram.bias.length = 100)
    (h4 : p.tetra_gram.kernel_size = 4)
    (h4k : p.tetra_gram.kernels.length = 100)
    (h4b : p.tetra_gram.bias.length = 100)
    (h5 : p.penta_gram.kernel_size = 5)
    (h5k : p.penta_gram.kernels.length = 100)
    (h5b : p.penta_gram.bias.length = 100)
    (hx : x.length = 30) :
    flattened p x =
      specWidthFeature p.tri_gram (staticBatch p x) (nonStaticBatch p x) ++
      specWidthFeature p.tetra_gram (staticBatch p x) (nonStaticBatch p x) ++
      specWidthFeature p.penta_gram (staticBatch p x) (nonStaticBatch p x) ∧
    (fmap3 p x).length = 100 ∧
    (fmap4 p x).length = 100 ∧
    (fmap5 p x).length = 100 ∧
    (flattened p x).length = 300 := by
  have hsb : (staticBatch p x).length = 30 := by simp [staticBatch, hx]
  have hnb : (nonStaticBatch p x).length = 30 := by
    simp [nonStaticBatch, hx]
  have l3 : (fmap3 p x).length = 100 :=
    specWidthFeature_length h3k h3b (hsb.trans hnb.symm)
      (by rw [hsb, h3]; norm_num)
  have l4 : (fmap4 p x).length = 100 :=
    specWidthFeature_length h4k h4b (hsb.trans hnb.symm)
      (by rw [hsb, h4]; norm_num)
  have l5 : (fmap5 p x).length = 100 :=
    specWidthFeature_length h5k h5b (hsb.trans hnb.symm)
      (by rw [hsb, h5]; norm_num)
  refine ⟨rfl, l3, l4, l5, ?_⟩
  rw [flattened, List.length_append, List.length_append]
  omega

/-- Witness for the C5 theorem at zero-initialized 100-channel filter banks
and a 30-position input. -/
theorem conv_stage_structure_witness :
    (flattened
      { static_embed := []
        non_static_embed := []
        tri_gram := ⟨3, List.replicate 100 [], List.replicate 100 0⟩
        tetra_gram := ⟨4, List.replicate 100 [], List.replicate 100 0⟩
        penta_gram := ⟨5, List.replicate 100 [], List.replicate 100 0⟩
        denseW := []
        denseB := [] }
      (List.replicate 30 0)).length = 300 :=
  (conv_stage_structure
    { static_embed := []
      non_static_embed := []
      tri_gram := ⟨3, List.replicate 100 [], List.replicate 100 0⟩
      tetra_gram := ⟨4, List.replicate 100 [], List.replicate 100 0⟩
      penta_gram := ⟨5, List.replicate 100 [], List.replicate 100 0⟩
      denseW := []
      denseB := [] }
    (List.replicate 30 0) rfl (by simp) (by simp) rfl (by simp) (by simp)
    rfl (by simp) (by simp) (by simp)).2.2.2.2

/-- C6: dropout on the logits is applied only when the training-mode flag is
true; with the flag false the dropout stage is the identity, so two forward
passes with the same weights and inputs (and any realised dropout masks)
give identical logits and identical arg-max predictions. -/
theorem dropout_identity_at_inference (p : Params) (x : List Nat)
    (m m1 m2 : List ℚ) :
    modelScore p x false m = denseScore p x ∧
    modelScore p x true m = applyDropoutMask dropoutRate m (denseScore p x) ∧
    modelScore p x false m1 = modelScore p x false m2 ∧
    prediction p x false m1 = prediction p x false m2 :=
  ⟨rfl, rfl, rfl, rfl⟩

/-- C7: the training objective is the sparse softmax cross-entropy of the
labels against the model's logits plus the sum of the registered
regularization penalties, which is the `l2(.7)` penalty on the output
layer's kernel, i.e. `0.7 * Σ w²`. -/
theorem total_loss_decomposition (fexp flog : ℚ → ℚ) (p : Params)
    (x : List Nat) (y : Nat) (is_training : Bool) (mask : List ℚ) :
    total_loss fexp flog p x y is_training mask =
      sparseSoftmaxCE fexp flog y (modelScore p x is_training mask) +
        (7 / 10) * sumSq p.denseW := by
  simp [total_loss, regularizationLosses, l2Penalty]

theorem runTrainPhase_spec {β : Type} (step : Params → β → Params × ℚ) :
    ∀ (it : List β) (p : Params) (acc : ℚ) (n : Nat),
      (runTrainPhase step p it acc n).2.2 = n + it.length ∧
      (runTrainPhase step p it acc n).2.1 =
        acc + (trainPhaseLosses step p it).sum := by
  intro it
  induction it with
  | nil => intro p acc n; simp [runTrainPhase, trainPhaseLosses]
  | cons b rest ih =>
    intro p acc n
    simp only [runTrainPhase, trainPhaseLosses, List.sum_cons, List.length_cons]
    refine ⟨?_, ?_⟩
    · rw [(ih _ _ _).1]
      omega
    · rw [(ih _ _ _).2]
      ring

theorem runValPhase_spec {β : Type} (f : β → ℚ) :
    ∀ (it : List β) (acc : ℚ) (n : Nat),
      (runValPhase f it acc n).2 = n + it.length ∧
      (runValPhase f it acc n).1 = acc + (it.map f).sum := by
  intro it
  induction it with
  | nil => intro acc n; simp [runValPhase]
  | cons b rest ih =>
    intro acc n
    simp only [runValPhase, List.map_cons, List.sum_cons, List.length_cons]
    refine ⟨?_, ?_⟩
    · rw [(ih _ _).1]
      omega
    · rw [(ih _ _).2]
      ring

/-- C8: in each epoch and phase the batch loop is driven by the iterator's
`getNext`, stopping exactly on its end-of-data signal (so every batch of the
split is processed — the step count equals the split's batch count, whatever
it is, not a fixed number), and the loss reported for the phase equals the
sum of the per-batch losses divided by the number of batches processed. -/
theorem epoch_loop_exhausts_and_averages (β : Type)
    (step : Params → β → Params × ℚ) (vloss : Params → β → ℚ)
    (p : Params) (trB valB : List β) :
    (∀ (q : Params) (it : List β) (acc : ℚ) (n : Nat),
      runTrainPhase step q it acc n =
        match getNext it with
        | Except.error _ => (q, acc, n)
        | Except.ok (b, rest) =>
            runTrainPhase step (step q b).1 rest (acc + (step q b).2)
              (n + 1)) ∧
    (runTrainPhase step p trB 0 0).2.2 = trB.length ∧
    (runValPhase (vloss (runTrainPhase step p trB 0 0).1) valB 0 0).2 =
      valB.length ∧
    (runEpoch step vloss p trB valB).2.1 =
      (trainPhaseLosses step p trB).sum / (trB.length : ℚ) ∧
    (runEpoch step vloss p trB valB).2.2 =
      (valB.map (vloss (runTrainPhase step p trB 0 0).1)).sum /
        (valB.length : ℚ) := by
  have htr := runTrainPhase_spec step trB p 0 0
  have hva := runValPhase_spec (vloss (runTrainPhase step p trB 0 0).1)
    valB 0 0
  refine ⟨?_, ?_, ?_, ?_, ?_⟩
  · intro q it acc n
    cases it with
    | nil => rfl
    | cons b rest => rfl
  · rw [htr.1]
    omega
  · rw [hva.1]
    omega
  · show (runTrainPhase step p trB 0 0).2.1 /
      ((runTrainPhase step p trB 0 0).2.2 : ℚ) = _
    rw [htr.1, htr.2]
    simp
  · show (runValPhase (vloss (runTrainPhase step p trB 0 0).1) valB 0 0).1 /
      ((runValPhase (vloss (runTrainPhase step p trB 0 0).1) valB 0 0).2 : ℚ) =
        _
    rw [hva.1, hva.2]
    simp

theorem toFinset_list_range (N : Nat) :
    (List.range N).toFinset = Finset.range N := by
  ext i
  simp

/-- C9: the validation and train index sets partition the training file's
rows: given that `np.random.choice(range(N), size = int(N * .2),
replace = False)` returns `⌊N/5⌋` distinct indices below `N`, the train
indices are exactly the complement, the two sets are disjoint, and the two
sizes sum to `N`. -/
theorem split_partitions_rows (N : Nat) (val_indices : List Nat)
    (hnd : val_indices.Nodup) (hsub : ∀ i ∈ val_indices, i < N)
    (hsize : val_indices.length = valSplitSize N) :
    (tr_indices N val_indices).length + val_indices.length = N ∧
    val_indices.length = N / 5 ∧
    (∀ i, i ∈ tr_indices N val_indices ↔ i < N ∧ i ∉ val_indices) ∧
    ∀ i ∈ tr_indices N val_indices, i ∉ val_indices := by
  have hmem : ∀ i, i ∈ tr_indices N val_indices ↔
      i < N ∧ i ∉ val_indices := by
    intro i
    simp [tr_indices, List.mem_filter, List.mem_range]
  have hsubF : val_indices.toFinset ⊆ Finset.range N := by
    intro i hi
    rw [List.mem_toFinset] at hi
    rw [Finset.mem_range]
    exact hsub i hi
  have htrnd : (tr_indices N val_indices).Nodup :=
    (List.nodup_range N).filter _
  have key : (tr_indices N val_indices).toFinset =
      Finset.range N \ val_indices.toFinset := by
    ext i
    rw [List.mem_toFinset, hmem i, Finset.mem_sdiff, Finset.mem_range,
      List.mem_toFinset]
  have hcard : (tr_indices N val_indices).length = N - val_indices.length := by
    rw [← List.toFinset_card_of_nodup htrnd, key, Finset.card_sdiff hsubF,
      Finset.card_range, List.toFinset_card_of_nodup hnd]
  have hle : val_indices.length ≤ N := by
    have := Finset.card_le_card hsubF
    rwa [Finset.card_range, List.toFinset_card_of_nodup hnd] at this
  refine ⟨by omega, hsize, hmem, fun i hi => ((hmem i).1 hi).2⟩

/-- Witness for the C9 theorem: `N = 10` rows with drawn validation indices
`[2, 7]` (two distinct indices, `⌊10/5⌋ = 2`). -/
theorem split_partitions_rows_witness :
    (tr_indices 10 [2, 7]).length + [2, 7].length = 10 ∧
    [2, 7].length = 10 / 5 ∧
    (∀ i, i ∈ tr_indices 10 [2, 7] ↔ i < 10 ∧ i ∉ [2, 7]) ∧
    ∀ i ∈ tr_indices 10 [2, 7], i ∉ [2, 7] :=
  split_partitions_rows 10 [2, 7] (by decide) (by decide) (by decide)

end MorphConvModel
